import Mathlib

/-!
Verification development for the `vectordb-bench` repository
(`src/benchmark/benchmark.py`).

The Python source is shallowly embedded: Python floats are modelled as
rationals (`ℚ`), Python ints as `ℤ`/`ℕ`, Python lists as `List`,
Python `set` as `Finset`, a Python function that can raise as
`Option`/`Except`.  Exceptions that the claims are about
(`NameError`, `AttributeError`, `ZeroDivisionError`) are modelled
explicitly, driven by the lists of names that the source actually
defines.
-/

/-! ## LatencyTracker (benchmark.py lines 44-74) -/

/-- The internal state of `LatencyTracker`: the `self.latencies` list
(latencies stored in milliseconds). -/
structure LatencyTracker where
  latencies : List ℚ
deriving DecidableEq

/-- `LatencyTracker.__init__`: `self.latencies = []`. -/
def LatencyTracker.init : LatencyTracker := ⟨[]⟩

/-- `record(self, latency_seconds)`: `self.latencies.append(latency_seconds * 1000)`. -/
def LatencyTracker.record (t : LatencyTracker) (latency_seconds : ℚ) : LatencyTracker :=
  ⟨t.latencies ++ [latency_seconds * 1000]⟩

/-- `reset(self)`: `self.latencies = []`. -/
def LatencyTracker.reset (_ : LatencyTracker) : LatencyTracker := ⟨[]⟩

/-- Python's builtin `min` on a non-empty list (the source only calls it on
non-empty lists; we return 0 on `[]`, a case `get_stats` guards against). -/
def pyListMin : List ℚ → ℚ
  | [] => 0
  | x :: xs => xs.foldl min x

/-- Python's builtin `max` on a non-empty list. -/
def pyListMax : List ℚ → ℚ
  | [] => 0
  | x :: xs => xs.foldl max x

/-- `statistics.mean(xs)`: the arithmetic mean `sum(xs) / len(xs)`. -/
def statisticsMean (xs : List ℚ) : ℚ := xs.sum / xs.length

/-- `np.percentile(xs, q)` with the default `linear` interpolation method,
for `xs` already sorted: position `h = q/100 * (n-1)`, value interpolated
linearly between the order statistics `xs[⌊h⌋]` and `xs[⌊h⌋+1]`. -/
def npPercentile (xs : List ℚ) (q : ℚ) : ℚ :=
  let n := xs.length
  let h : ℚ := q / 100 * ((n : ℚ) - 1)
  let i : ℕ := ⌊h⌋₊
  let lo := xs.getD i 0
  let hi := xs.getD (i + 1) lo
  lo + (h - (i : ℚ)) * (hi - lo)

/-- The dictionary returned by `LatencyTracker.get_stats` on a non-empty
sample list (benchmark.py lines 60-71). -/
structure LatencyStats where
  count : ℕ
  mean_ms : ℚ
  p50_ms : ℚ
  p80_ms : ℚ
  p90_ms : ℚ
  p95_ms : ℚ
  p99_ms : ℚ
  p99_9_ms : ℚ
  min_ms : ℚ
  max_ms : ℚ
deriving DecidableEq

/-- `get_stats(self)`: returns `{}` (modelled `none`) when `self.latencies`
is empty, otherwise sorts the samples and reports count, mean, the
percentiles via `np.percentile`, min and max. -/
def LatencyTracker.get_stats (t : LatencyTracker) : Option LatencyStats :=
  if t.latencies = [] then none
  else
    let sorted_latencies := List.insertionSort (· ≤ ·) t.latencies
    let n := sorted_latencies.length
    some
      { count := n
        mean_ms := statisticsMean sorted_latencies
        p50_ms := npPercentile sorted_latencies 50
        p80_ms := npPercentile sorted_latencies 80
        p90_ms := npPercentile sorted_latencies 90
        p95_ms := npPercentile sorted_latencies 95
        p99_ms := npPercentile sorted_latencies 99
        p99_9_ms := npPercentile sorted_latencies (999/10)
        min_ms := pyListMin sorted_latencies
        max_ms := pyListMax sorted_latencies }

/-! ## Recall (benchmark.py lines 34-42)

`calculate_recall(results, ground_truth, k)` iterates over
`zip(results, ground_truth)`; for each pair it forms the set of result
ids and the set `set(truth[:k])` and computes
`len(result_ids & truth_ids) / min(k, len(truth_ids))`, then returns
`np.mean(recalls)`.  A `result` is modelled as its list of hit ids.
Python raises `ZeroDivisionError` when the denominator is `0`; that is
modelled as `none`. -/

/-- The body of `calculate_recall`'s loop for one `(result, truth)` pair:
`len(set(result_ids) & set(truth[:k])) / min(k, len(set(truth[:k])))`,
`none` when Python would raise `ZeroDivisionError`. -/
def recallOfQuery (result_ids : List ℤ) (truth : List ℤ) (k : ℕ) : Option ℚ :=
  let rset : Finset ℤ := result_ids.toFinset
  let truth_ids : Finset ℤ := (truth.take k).toFinset
  let denom : ℕ := min k truth_ids.card
  if denom = 0 then none
  else some (((rset ∩ truth_ids).card : ℚ) / (denom : ℚ))

/-- `calculate_recall(results, ground_truth, k=100)`: the mean of the
per-query recalls over `zip(results, ground_truth)`; `none` when any
query raises (`ZeroDivisionError` propagates out of the loop).
(`np.mean` of a non-empty list is `sum/len`.) -/
def calculate_recall (results ground_truth : List (List ℤ)) (k : ℕ := 100) : Option ℚ :=
  (((results.zip ground_truth).mapM fun p => recallOfQuery p.1 p.2 k).map
    fun recalls => recalls.sum / recalls.length)

/-! ## Python exceptions relevant to the claims -/

/-- The Python exceptions the claims are about. -/
inductive PyError where
  | nameError (name : String)
  | attributeError (cls attrName : String)
  | zeroDivisionError
deriving DecidableEq

/-! ## SearchWorker (benchmark.py lines 77-139)

The fields set by `SearchWorker.__init__`; `query_idx` is a local of
`run` and is threaded through the loop separately.  The external
`collection.search(...)` call is abstracted by a `SearchOutcome`
supplied per iteration: the call either returns after some latency or
raises. -/

structure SearchWorker where
  worker_id : ℕ
  collection_name : String
  queries : List (List ℚ)
  latency_tracker : LatencyTracker
  duration : ℚ
  running : Bool
  queries_executed : ℕ
  errors : ℕ
  milvus_host : String
  milvus_port : String
deriving DecidableEq

/-- `SearchWorker.__init__` (lines 80-91). -/
def SearchWorker.init (worker_id : ℕ) (collection_name : String)
    (queries : List (List ℚ)) (latency_tracker : LatencyTracker) (duration : ℚ)
    (milvus_host milvus_port : String) : SearchWorker :=
  { worker_id := worker_id
    collection_name := collection_name
    queries := queries
    latency_tracker := latency_tracker
    duration := duration
    running := true
    queries_executed := 0
    errors := 0
    milvus_host := milvus_host
    milvus_port := milvus_port }

/-- Outcome of one `collection.search` RPC (an external collaborator):
success with a measured latency, or any raised exception. -/
inductive SearchOutcome where
  | success (latency : ℚ)
  | failure
deriving DecidableEq

/-- One iteration of the `while` body of `SearchWorker.run`
(lines 107-134): on success the latency is recorded,
`queries_executed` and `query_idx` advance; on any exception the
`except` block runs `self.errors += 1` and the loop continues. -/
def SearchWorker.iter (w : SearchWorker) (query_idx : ℕ) (outcome : SearchOutcome) :
    SearchWorker × ℕ :=
  match outcome with
  | .success latency =>
      ({ w with
          latency_tracker := w.latency_tracker.record latency
          queries_executed := w.queries_executed + 1 }, query_idx + 1)
  | .failure => ({ w with errors := w.errors + 1 }, query_idx)

/-- The `while self.running and time.time() < end_time` loop of
`SearchWorker.run`.  Each schedule entry supplies the value of the
wall-clock test `time.time() < end_time` for that iteration together
with the outcome of the search call; the loop stops when the guard
fails or the (finite) schedule runs out. -/
def SearchWorker.loop (w : SearchWorker) (query_idx : ℕ) :
    List (Bool × SearchOutcome) → SearchWorker
  | [] => w
  | (timeOk, outcome) :: rest =>
      if w.running ∧ timeOk then
        let p := w.iter query_idx outcome
        p.1.loop p.2 rest
      else w

/-! ## InsertWorker (benchmark.py lines 142-219) -/

/-- The dataset-reader collaborator used by `InsertWorker`
(`self.reader`): a vector count and `read_vectors(start, count)`. -/
structure InsertReader where
  num_vectors : ℤ
  read_vectors : ℤ → ℤ → List (List ℚ)

/-- The fields set by `InsertWorker.__init__` (lines 145-160). -/
structure InsertWorker where
  worker_id : ℕ
  collection_name : String
  reader : InsertReader
  current_idx : ℤ
  end_idx : ℤ
  batch_size : ℤ
  target_qps : ℚ
  duration : ℚ
  running : Bool
  vectors_inserted : ℕ
  errors : ℕ
  milvus_host : String
  milvus_port : String

/-- `InsertWorker.__init__`: in particular `self.current_idx = start_idx`,
`self.vectors_inserted = 0`, `self.errors = 0`, `self.running = True`.
No attribute named `collection` is ever assigned. -/
def InsertWorker.init (worker_id : ℕ) (collection_name : String)
    (reader : InsertReader) (start_idx end_idx batch_size : ℤ)
    (target_qps duration : ℚ) (milvus_host milvus_port : String) : InsertWorker :=
  { worker_id := worker_id
    collection_name := collection_name
    reader := reader
    current_idx := start_idx
    end_idx := end_idx
    batch_size := batch_size
    target_qps := target_qps
    duration := duration
    running := true
    vectors_inserted := 0
    errors := 0
    milvus_host := milvus_host
    milvus_port := milvus_port }

/-- The instance attributes an `InsertWorker` object has when `run`
executes: exactly the names assigned on `self` in
`InsertWorker.__init__` (lines 145-160).  `"collection"` is not among
them — `run` only binds a *local* variable `collection` (line 166). -/
def insertWorkerInstanceAttrs : List String :=
  ["worker_id", "collection_name", "reader", "current_idx", "end_idx",
   "batch_size", "target_qps", "duration", "running", "vectors_inserted",
   "errors", "milvus_host", "milvus_port"]

/-- `remaining = min(self.end_idx - self.current_idx,
self.reader.num_vectors - self.current_idx)` (lines 177-178). -/
def InsertWorker.remaining (w : InsertWorker) : ℤ :=
  min (w.end_idx - w.current_idx) (w.reader.num_vectors - w.current_idx)

/-- `batch = min(self.batch_size, remaining)` (line 184). -/
def InsertWorker.batch (w : InsertWorker) : ℤ :=
  min w.batch_size w.remaining

/-- Result of one iteration of the `while` body of `InsertWorker.run`:
`brk` models a `break`, `cont` falling through to the next iteration. -/
inductive InsertIterResult where
  | brk (w : InsertWorker)
  | cont (w : InsertWorker)

/-- One iteration of the `try` body of `InsertWorker.run`
(lines 175-215): compute `remaining`; `break` if it is `<= 0`;
read `batch = min(self.batch_size, remaining)` vectors; `break` if
none were returned; otherwise evaluate `self.collection.insert(...)`
(line 203) — an attribute lookup of `collection` on `self`, which
raises `AttributeError` when `"collection"` is not an instance
attribute, landing in the `except` block (`self.errors += 1`);
on success `self.vectors_inserted` and `self.current_idx` advance by
the number of vectors read. -/
def InsertWorker.iter (w : InsertWorker) : InsertIterResult :=
  let remaining := w.remaining
  if remaining ≤ 0 then .brk w
  else
    let vectors := w.reader.read_vectors w.current_idx w.batch
    if vectors.length = 0 then .brk w
    else if "collection" ∈ insertWorkerInstanceAttrs then
      .cont { w with
                vectors_inserted := w.vectors_inserted + vectors.length
                current_idx := w.current_idx + vectors.length }
    else
      .cont { w with errors := w.errors + 1 }

/-- The `while self.running and time.time() < end_time and
self.current_idx < self.end_idx` loop of `InsertWorker.run`
(line 174).  Each schedule entry supplies that iteration's wall-clock
test; the loop stops on `break`, on a failed guard, or when the
(finite) schedule runs out. -/
def InsertWorker.loop (w : InsertWorker) : List Bool → InsertWorker
  | [] => w
  | timeOk :: rest =>
      if w.running ∧ timeOk ∧ w.current_idx < w.end_idx then
        match w.iter with
        | .brk w' => w'
        | .cont w' => w'.loop rest
      else w

/-! ## run_benchmark: name resolution in the concurrent-phase setup
(benchmark.py lines 221-432)

Python resolves a name that is assigned nowhere in the enclosing
function by looking it up among the module's globals; if it is not
there either, evaluating it raises `NameError`.  The two lists below
are transcribed from the source: every name bound inside
`run_benchmark` (its parameters, every assignment target, and every
`for`/`with` target), and every module-level name of `benchmark.py`
(imports, constants, functions, classes). -/

/-- Names bound somewhere inside `run_benchmark` (parameters and
assignment/loop targets, lines 221-575). -/
def runBenchmarkLocalNames : List String :=
  ["query_file", "ground_truth_file", "milvus_host", "milvus_port",
   "search_qps", "insert_qps", "num_search_workers", "num_insert_workers",
   "insert_batch_size", "duration", "search_only_duration",
   "queries", "ground_truth_ids", "ground_truth_distances",
   "search_only_stats", "search_only_workers", "i", "lat_tracker", "worker",
   "start_time", "last_report", "elapsed", "total_searches", "current_qps",
   "latencies", "sorted_latencies", "n", "stats", "search_only_time",
   "search_only_total", "search_only_errors", "lat", "latency_tracker",
   "insert_qps_per_worker", "remaining_vectors", "vectors_per_insert_worker",
   "search_workers", "insert_workers", "start_idx", "end_idx",
   "total_inserts", "current_insert_rate", "total_time",
   "total_search_errors", "total_insert_errors", "search_stats",
   "results", "filename", "f"]

/-- Module-level names of `benchmark.py` (lines 1-14 imports and
constants, plus the module's functions and classes). -/
def benchmarkModuleGlobals : List String :=
  ["struct", "time", "np", "connections", "Collection", "threading",
   "datetime", "json", "os", "defaultdict", "statistics",
   "COLLECTION_NAME", "TOP_K", "read_spacev1b_queries",
   "read_spacev1b_groundtruth", "calculate_recall", "LatencyTracker",
   "SearchWorker", "InsertWorker", "run_benchmark"]

/-- Whether evaluating the name `x` inside `run_benchmark` succeeds:
`x` is bound in the function or is a module global. -/
def runBenchmarkResolves (x : String) : Bool :=
  runBenchmarkLocalNames.contains x || benchmarkModuleGlobals.contains x

/-- Line 398, `remaining_vectors = reader.num_vectors - initial_vectors`:
the right-hand side evaluates `reader` first, then `initial_vectors`;
an unresolvable name raises `NameError` there. -/
def evalLine398 : Except PyError Unit :=
  if runBenchmarkResolves "reader" then
    if runBenchmarkResolves "initial_vectors" then Except.ok ()
    else Except.error (PyError.nameError "initial_vectors")
  else Except.error (PyError.nameError "reader")

/-- The tail of `run_benchmark` from the concurrent phase on
(lines 386-575): when `duration > 0` the concurrent-phase setup runs,
whose first statement containing an unbound name is line 398; an
exception raised there propagates out of `run_benchmark` (there is no
enclosing `try`), so the phase never starts and the report block at
lines 539-575 is never reached.  The returned `Bool` records whether
the report file at lines 573-575 was written. -/
def runBenchmarkFromConcurrentPhase (duration : ℤ) : Except PyError Bool :=
  if 0 < duration then
    match evalLine398 with
    | Except.error e => Except.error e
    | Except.ok _ =>
        -- lines 399-505 (worker construction and the concurrent phase)
        -- would execute here, then the report would be written
        Except.ok true
  else
    -- the phase body is skipped; the report block then runs
    Except.ok true

/-! ## run_benchmark: insert-range partitioning (benchmark.py lines 396-421)

`vectors_per_insert_worker = remaining_vectors // num_insert_workers`
with `remaining_vectors = num_vectors - initial_vectors`; worker `i`
gets `start_idx = initial_vectors + i * vectors_per_insert_worker`,
`end_idx = start_idx + vectors_per_insert_worker`, and the last worker
instead gets `end_idx = num_vectors`. -/

/-- `vectors_per_insert_worker` (lines 398-399). -/
def vectors_per_insert_worker (initial_vectors num_vectors W : ℕ) : ℕ :=
  (num_vectors - initial_vectors) / W

/-- `start_idx` for insert worker `i` (line 418). -/
def insertWorkerStart (initial_vectors num_vectors W i : ℕ) : ℕ :=
  initial_vectors + i * vectors_per_insert_worker initial_vectors num_vectors W

/-- `end_idx` for insert worker `i` (lines 419-421): `start_idx +
vectors_per_insert_worker`, except the last worker gets `num_vectors`. -/
def insertWorkerEnd (initial_vectors num_vectors W i : ℕ) : ℕ :=
  if i = W - 1 then num_vectors
  else insertWorkerStart initial_vectors num_vectors W i +
    vectors_per_insert_worker initial_vectors num_vectors W

/-- The index range `[start_idx, end_idx)` handed to insert worker `i`. -/
def insertWorkerRange (initial_vectors num_vectors W i : ℕ) : Finset ℕ :=
  Finset.Ico (insertWorkerStart initial_vectors num_vectors W i)
    (insertWorkerEnd initial_vectors num_vectors W i)

/-! ## run_benchmark: the persisted report (benchmark.py lines 338-361, 539-575) -/

/-- A JSON value, the shape of what `json.dump` serialises. -/
inductive JVal where
  | jnum (q : ℚ)
  | jstr (s : String)
  | jnull
  | jobj (fields : List (String × JVal))

/-- Lookup of a key in a JSON object. -/
def JVal.lookup : JVal → String → Option JVal
  | .jobj fields, key => (fields.find? fun p => p.1 == key).map fun p => p.2
  | _, _ => none

/-- The `search_only_stats` dictionary (lines 355-361): duration, total
queries, errors, achieved QPS and the merged latency statistics of the
search-only phase. -/
def mkSearchOnlyStats (search_only_time : ℚ) (search_only_total : ℕ)
    (search_only_errors : ℕ) (latency : JVal) : JVal :=
  .jobj
    [("duration_seconds", .jnum search_only_time),
     ("total_queries", .jnum search_only_total),
     ("errors", .jnum search_only_errors),
     ("actual_qps", .jnum (search_only_total / search_only_time)),
     ("latency", latency)]

/-- The `results` dictionary built at lines 540-571 and written to the
report file: timestamp, config echo, and a `results` object whose only
entry is `search_only` (the `concurrent` entry, lines 556-569, is
commented out in the source).  `search_only_stats` is `None`
(serialised `null`) when the search-only phase did not run. -/
def buildReport (timestamp : String) (milvus_host milvus_port : String)
    (search_qps insert_qps num_search_workers num_insert_workers
      insert_batch_size : ℕ) (search_only_duration duration : ℤ)
    (search_only_stats : Option JVal) : JVal :=
  .jobj
    [("timestamp", .jstr timestamp),
     ("config", .jobj
       [("host", .jstr milvus_host),
        ("port", .jstr milvus_port),
        ("collection", .jstr "spacev1b"),
        ("search_qps_target", .jnum search_qps),
        ("insert_qps_target", .jnum insert_qps),
        ("num_search_workers", .jnum num_search_workers),
        ("num_insert_workers", .jnum num_insert_workers),
        ("insert_batch_size", .jnum insert_batch_size),
        ("search_only_duration", .jnum search_only_duration),
        ("concurrent_duration", .jnum duration)]),
     ("results", .jobj
       [("search_only", search_only_stats.getD .jnull)])]

/-- The worker carried by an `InsertIterResult`, whichever way the
iteration ended. -/
def InsertIterResult.worker : InsertIterResult → InsertWorker
  | .brk w => w
  | .cont w => w

/-! # Theorems -/

/-! ## C1 -/

/-- C1: for every call to `run_benchmark` with `duration > 0`, the
concurrent-phase setup raises `NameError` (at line 398, on `reader`,
which is defined nowhere in the function or module), so the concurrent
search+insert phase never starts and the report file is never written
(the run ends in `Except.error`, never reaching `Except.ok`). -/
theorem c1_concurrent_phase_raises_name_error (duration : ℤ) (h : 0 < duration) :
    runBenchmarkFromConcurrentPhase duration =
      Except.error (PyError.nameError "reader") := by
  unfold runBenchmarkFromConcurrentPhase
  rw [if_pos h]
  have h398 : evalLine398 = Except.error (PyError.nameError "reader") := by rfl
  rw [h398]

/-- Witness for C1 at the concrete duration 1. -/
theorem c1_witness :
    (0 : ℤ) < 1 ∧ runBenchmarkFromConcurrentPhase 1 =
      Except.error (PyError.nameError "reader") :=
  ⟨by decide, c1_concurrent_phase_raises_name_error 1 (by decide)⟩

/-! ## C2 -/

/-- Both `current_idx` and `vectors_inserted` are unchanged by one
iteration of `InsertWorker.run`'s loop, whichever branch is taken:
the two `break` branches leave the worker untouched, and the insert
step always raises `AttributeError` (no `collection` attribute), so
the success branch that would advance them never runs. -/
theorem insertIter_preserves_cursor (w : InsertWorker) :
    (w.iter).worker.current_idx = w.current_idx ∧
    (w.iter).worker.vectors_inserted = w.vectors_inserted := by
  have hc : ¬ ("collection" ∈ insertWorkerInstanceAttrs) := by decide
  by_cases h1 : w.remaining ≤ 0
  · simp [InsertWorker.iter, h1, InsertIterResult.worker]
  · by_cases h2 : (w.reader.read_vectors w.current_idx w.batch).length = 0
    · simp [InsertWorker.iter, h1, h2, InsertIterResult.worker]
    · simp [InsertWorker.iter, h1, h2, hc, InsertIterResult.worker]

/-- The whole-run version: however many iterations the loop takes,
`current_idx` and `vectors_inserted` never change. -/
theorem insertLoop_preserves_cursor (sched : List Bool) : ∀ w : InsertWorker,
    (w.loop sched).current_idx = w.current_idx ∧
    (w.loop sched).vectors_inserted = w.vectors_inserted := by
  induction sched with
  | nil => intro w; exact ⟨rfl, rfl⟩
  | cons timeOk rest ih =>
    intro w
    unfold InsertWorker.loop
    by_cases hg : w.running ∧ timeOk ∧ w.current_idx < w.end_idx
    · rw [if_pos hg]
      have hfix := insertIter_preserves_cursor w
      cases hiter : w.iter with
      | brk w' =>
        rw [hiter] at hfix
        exact hfix
      | cont w' =>
        rw [hiter] at hfix
        obtain ⟨hfix1, hfix2⟩ := hfix
        obtain ⟨hl1, hl2⟩ := ih w'
        exact ⟨hl1.trans hfix1, hl2.trans hfix2⟩
    · rw [if_neg hg]
      exact ⟨rfl, rfl⟩

/-- C2: `"collection"` is not an instance attribute of `InsertWorker`,
so every loop iteration that reaches the insert step (positive
`remaining`, non-empty read) takes the `except` branch, incrementing
`errors` by one and changing nothing else; consequently over any whole
run of a worker built by `__init__` with `start_idx`,
`vectors_inserted` stays 0 and `current_idx` stays `start_idx`. -/
theorem c2_insert_step_attribute_error :
    ("collection" ∉ insertWorkerInstanceAttrs) ∧
    (∀ w : InsertWorker, 0 < w.remaining →
      (w.reader.read_vectors w.current_idx w.batch).length ≠ 0 →
      w.iter = .cont { w with errors := w.errors + 1 }) ∧
    (∀ (worker_id : ℕ) (collection_name : String) (reader : InsertReader)
       (start_idx end_idx batch_size : ℤ) (target_qps duration : ℚ)
       (milvus_host milvus_port : String) (sched : List Bool),
      ((InsertWorker.init worker_id collection_name reader start_idx end_idx
          batch_size target_qps duration milvus_host milvus_port).loop
          sched).current_idx = start_idx ∧
      ((InsertWorker.init worker_id collection_name reader start_idx end_idx
          batch_size target_qps duration milvus_host milvus_port).loop
          sched).vectors_inserted = 0) := by
  refine ⟨by decide, ?_, ?_⟩
  · intro w h1 h2
    unfold InsertWorker.iter
    rw [if_neg (not_le.mpr h1), if_neg h2, if_neg (by decide)]
  · intro worker_id collection_name reader start_idx end_idx batch_size
      target_qps duration milvus_host milvus_port sched
    exact insertLoop_preserves_cursor sched _

/-- Witness for C2: a concrete worker whose reader returns one vector;
the iteration reaching the insert step ends in the error branch. -/
theorem c2_witness :
    (InsertWorker.init 0 "spacev1b" ⟨10, fun _ _ => [[1]]⟩ 0 5 2 100 60
        "node1" "19530").iter =
      .cont { (InsertWorker.init 0 "spacev1b" ⟨10, fun _ _ => [[1]]⟩ 0 5 2 100 60
        "node1" "19530") with errors := 1 } := by
  have h := c2_insert_step_attribute_error.2.1
    (InsertWorker.init 0 "spacev1b" ⟨10, fun _ _ => [[1]]⟩ 0 5 2 100 60
      "node1" "19530") (by decide) (by decide)
  exact h

/-! ## C5 -/

/-- C5: a freshly constructed tracker and a reset tracker hold zero
samples and `get_stats` returns the defined empty result (`{}`,
modelled `none`) without raising; `record(d)` appends exactly one
sample equal to `d * 1000` (seconds converted to milliseconds). -/
theorem c5_empty_stats_and_record :
    LatencyTracker.init.get_stats = none ∧
    (∀ t : LatencyTracker, t.reset.get_stats = none) ∧
    (∀ (t : LatencyTracker) (d : ℚ),
      (t.record d).latencies = t.latencies ++ [d * 1000]) ∧
    (∀ (t : LatencyTracker) (d : ℚ),
      (t.record d).latencies.length = t.latencies.length + 1) := by
  refine ⟨rfl, fun _ => rfl, fun _ _ => rfl, fun t d => ?_⟩
  simp [LatencyTracker.record]

/-- Witness for C5 at a concrete tracker and sample. -/
theorem c5_witness :
    (LatencyTracker.record ⟨[7]⟩ 2).latencies = [7, 2 * 1000] :=
  c5_empty_stats_and_record.2.2.1 ⟨[7]⟩ 2

/-! ## C8 -/

/-- C8: whenever an iteration of `InsertWorker.run` gets past the
`remaining <= 0` check, the batch size requested from the reader is
`min(batch_size, end_idx - current_idx, num_vectors - current_idx)`;
and if the reader returns zero vectors the iteration `break`s with the
worker unchanged (in particular `errors` is not incremented), ending
the loop. -/
theorem c8_batch_size_and_empty_read (w : InsertWorker) (h : 0 < w.remaining) :
    w.batch = min w.batch_size
      (min (w.end_idx - w.current_idx) (w.reader.num_vectors - w.current_idx)) ∧
    (w.reader.read_vectors w.current_idx w.batch = [] →
      w.iter = .brk w ∧
      ∀ (timeOk : Bool) (rest : List Bool), w.loop (timeOk :: rest) = w) := by
  refine ⟨rfl, fun hread => ?_⟩
  have hiter : w.iter = .brk w := by
    unfold InsertWorker.iter
    rw [if_neg (not_le.mpr h), hread]
    rfl
  refine ⟨hiter, fun timeOk rest => ?_⟩
  unfold InsertWorker.loop
  by_cases hg : w.running ∧ timeOk ∧ w.current_idx < w.end_idx
  · rw [if_pos hg, hiter]
  · rw [if_neg hg]

/-- Witness for C8: a concrete worker whose reader returns no vectors. -/
theorem c8_witness :
    (InsertWorker.init 0 "spacev1b" ⟨10, fun _ _ => []⟩ 0 5 2 100 60
        "node1" "19530").iter =
      .brk (InsertWorker.init 0 "spacev1b" ⟨10, fun _ _ => []⟩ 0 5 2 100 60
        "node1" "19530") :=
  ((c8_batch_size_and_empty_read
    (InsertWorker.init 0 "spacev1b" ⟨10, fun _ _ => []⟩ 0 5 2 100 60
      "node1" "19530") (by decide)).2 (by decide)).1

/-! ## C9 -/

/-- C9: a failed search call increments `errors` by exactly one and
changes nothing else; the loop then continues with the remaining
iterations whenever the running flag and deadline permit; and over any
schedule, queries executed plus errors grows by at most the number of
loop iterations taken. -/
theorem c9_search_failures_counted_loop_continues :
    (∀ (w : SearchWorker) (query_idx : ℕ),
      w.iter query_idx .failure = ({ w with errors := w.errors + 1 }, query_idx)) ∧
    (∀ (w : SearchWorker) (query_idx : ℕ) (o : SearchOutcome)
       (rest : List (Bool × SearchOutcome)),
      w.running = true →
      w.loop query_idx ((true, o) :: rest) =
        ((w.iter query_idx o).1).loop (w.iter query_idx o).2 rest) ∧
    (∀ (sched : List (Bool × SearchOutcome)) (w : SearchWorker) (query_idx : ℕ),
      (w.loop query_idx sched).queries_executed + (w.loop query_idx sched).errors ≤
        w.queries_executed + w.errors + sched.length) := by
  refine ⟨fun _ _ => rfl, ?_, ?_⟩
  · intro w query_idx o rest hrun
    simp only [SearchWorker.loop]
    rw [if_pos ⟨hrun, trivial⟩]
  · intro sched
    induction sched with
    | nil => intro w query_idx; simp [SearchWorker.loop]
    | cons entry rest ih =>
      intro w query_idx
      obtain ⟨timeOk, o⟩ := entry
      unfold SearchWorker.loop
      by_cases hg : w.running = true ∧ timeOk = true
      · rw [if_pos hg]
        have hstep :
            ((w.iter query_idx o).1).queries_executed +
              ((w.iter query_idx o).1).errors ≤
              w.queries_executed + w.errors + 1 := by
          cases o <;> simp [SearchWorker.iter] <;> omega
        have := ih (w.iter query_idx o).1 (w.iter query_idx o).2
        simp only [List.length_cons]
        omega
      · rw [if_neg hg]
        simp only [List.length_cons]
        omega

/-- Witness for C9: the loop-continuation equation at a concrete worker
and schedule. -/
theorem c9_witness :
    (SearchWorker.init 0 "spacev1b" [[1]] LatencyTracker.init 60 "node1"
        "19530").loop 0 [(true, SearchOutcome.failure)] =
      (((SearchWorker.init 0 "spacev1b" [[1]] LatencyTracker.init 60 "node1"
        "19530").iter 0 SearchOutcome.failure).1).loop
        (((SearchWorker.init 0 "spacev1b" [[1]] LatencyTracker.init 60 "node1"
          "19530").iter 0 SearchOutcome.failure).2) [] :=
  c9_search_failures_counted_loop_continues.2.1
    (SearchWorker.init 0 "spacev1b" [[1]] LatencyTracker.init 60 "node1" "19530")
    0 SearchOutcome.failure [] rfl

/-! ## C6 -/

set_option maxRecDepth 1000000 in
/-- C6: on a query with non-empty ground truth the per-query recall is
`|result set ∩ top-k truth set| / min(k, |truth set|)`; with results
`{1,2,3}` against ground truth `[1,...,100]` at `k = 100` the recall
is `3/100`; and whenever the result ID set coincides with the top-k
ground-truth ID set (non-empty) the recall is `1`. -/
theorem c6_recall_formula_and_values :
    calculate_recall [[1, 2, 3]] [(List.range' 1 100).map Int.ofNat] 100 =
      some (3 / 100) ∧
    (∀ (res truth : List ℤ) (k : ℕ),
      ((truth.take k).toFinset : Finset ℤ).Nonempty →
      recallOfQuery res truth k =
        some (((res.toFinset ∩ (truth.take k).toFinset).card : ℚ) /
          ((min k (truth.take k).toFinset.card : ℕ) : ℚ))) ∧
    (∀ (res truth : List ℤ) (k : ℕ),
      ((truth.take k).toFinset : Finset ℤ).Nonempty →
      res.toFinset = (truth.take k).toFinset →
      recallOfQuery res truth k = some 1) := by
  have hdenom : ∀ (truth : List ℤ) (k : ℕ),
      ((truth.take k).toFinset : Finset ℤ).Nonempty →
      min k (truth.take k).toFinset.card ≠ 0 := by
    intro truth k hne
    have hcard : 0 < (truth.take k).toFinset.card := Finset.card_pos.mpr hne
    have hk : 0 < k := by
      rcases Nat.eq_zero_or_pos k with hk0 | hk
      · subst hk0
        simp at hcard
      · exact hk
    omega
  refine ⟨?_, ?_, ?_⟩
  · have h1 : recallOfQuery [1, 2, 3] ((List.range' 1 100).map Int.ofNat) 100 =
        some (3/100) := by rfl
    simp only [calculate_recall, List.zip_cons_cons, List.zip_nil_right, List.mapM_cons,
      List.mapM_nil, h1, Option.pure_def, Option.bind_eq_bind, Option.bind_some,
      Option.map_some, List.sum_cons, List.sum_nil, List.length_cons, List.length_nil,
      Option.some.injEq]
    norm_num
  · intro res truth k hne
    unfold recallOfQuery
    rw [if_neg (hdenom truth k hne)]
  · intro res truth k hne heq
    have hle : (truth.take k).toFinset.card ≤ k :=
      le_trans (truth.take k).toFinset_card_le (truth.length_take_le k)
    have hmin : min k (truth.take k).toFinset.card = (truth.take k).toFinset.card :=
      min_eq_right hle
    have hcard : 0 < (truth.take k).toFinset.card := Finset.card_pos.mpr hne
    unfold recallOfQuery
    rw [if_neg (hdenom truth k hne)]
    rw [heq, Finset.inter_self, hmin]
    congr 1
    rw [div_self]
    exact_mod_cast hcard.ne'

/-- Witness for C6: identical result and truth sets give recall 1. -/
theorem c6_witness :
    recallOfQuery [1, 2] [2, 1, 3] 2 = some 1 :=
  c6_recall_formula_and_values.2.2 [1, 2] [2, 1, 3] 2 (by decide) (by decide)

/-! ## C7 (corrected) -/

/-- C7 counterexample: the claim says `calculate_recall` never divides
by zero and returns a value even for a query whose ground-truth ID set
is empty; but on the concrete input `results = [[1]]`,
`ground_truth = [[]]`, `k = 100` the denominator
`min(k, len(truth_ids))` is 0 and Python raises `ZeroDivisionError`
(modelled `none`): no value is returned. -/
theorem c7_counterexample_empty_truth_divides_by_zero :
    recallOfQuery [1] [] 100 = none ∧
    calculate_recall [[1]] [[]] 100 = none := by
  exact ⟨rfl, rfl⟩

/-- C7 amended: the denominator is `min(k, |set(truth[:k])|)`, so when
the ground truth has fewer than `k` entries the smaller value is used,
and no division by zero occurs *provided the truncated ground-truth ID
set is non-empty*; the quotient then has the truth-set size as
denominator.  (When that set is empty, `ZeroDivisionError` is raised —
the code adopts neither of the two policies the spec offers.) -/
theorem c7_amended_denominator (res truth : List ℤ) (k : ℕ)
    (h : ((truth.take k).toFinset : Finset ℤ).Nonempty) :
    recallOfQuery res truth k =
      some (((res.toFinset ∩ (truth.take k).toFinset).card : ℚ) /
        (((truth.take k).toFinset.card : ℕ) : ℚ)) := by
  have hcard : 0 < (truth.take k).toFinset.card := Finset.card_pos.mpr h
  have hk : 0 < k := by
    rcases Nat.eq_zero_or_pos k with hk0 | hk
    · subst hk0
      simp at hcard
    · exact hk
  have hle : (truth.take k).toFinset.card ≤ k :=
    le_trans (truth.take k).toFinset_card_le (truth.length_take_le k)
  unfold recallOfQuery
  rw [if_neg (by omega : ¬ min k (truth.take k).toFinset.card = 0)]
  rw [min_eq_right hle]

/-- Witness for C7's amended theorem at a concrete query. -/
theorem c7_witness :
    recallOfQuery [1] [1, 2] 5 =
      some ((((([1] : List ℤ).toFinset ∩ (([1, 2] : List ℤ).take 5).toFinset).card : ℕ) : ℚ) /
        ((((([1, 2] : List ℤ).take 5).toFinset.card : ℕ)) : ℚ)) :=
  c7_amended_denominator [1] [1, 2] 5 (by decide)

/-! ## C10 (corrected) -/

/-- C10 counterexample: at `duration = 1` the run raises `NameError`
before any report is written (so a run with a concurrent phase never
persists anything); and even for the report that *is* written when
`duration = 0`, the `results` object contains no `concurrent` entry at
all — the concurrent phase's statistics (lines 556-569) are commented
out — shown here on a concrete fully-instantiated report. -/
theorem c10_counterexample_concurrent_stats_missing :
    runBenchmarkFromConcurrentPhase 1 =
      Except.error (PyError.nameError "reader") ∧
    ((buildReport "2025-01-01T00:00:00" "node1" "19530" 1000 10000 10 5 1000
        300 0 (some (mkSearchOnlyStats 300 1234 7 JVal.jnull))).lookup
        "results").bind (fun r => r.lookup "concurrent") = none := by
  exact ⟨rfl, rfl⟩

/-- C10 amended: a completed run (which requires `duration ≤ 0`, by C1)
persists a report whose `results` object carries exactly the
search-only phase's aggregated statistics, whose `errors` field is the
phase's error count; the concurrent phase's statistics are never
written. -/
theorem c10_amended_report_contents (timestamp milvus_host milvus_port : String)
    (search_qps insert_qps num_search_workers num_insert_workers
      insert_batch_size : ℕ) (search_only_duration duration : ℤ)
    (search_only_time : ℚ) (search_only_total search_only_errors : ℕ)
    (latency : JVal) :
    ((buildReport timestamp milvus_host milvus_port search_qps insert_qps
        num_search_workers num_insert_workers insert_batch_size
        search_only_duration duration
        (some (mkSearchOnlyStats search_only_time search_only_total
          search_only_errors latency))).lookup "results") =
      some (.jobj [("search_only",
        mkSearchOnlyStats search_only_time search_only_total
          search_only_errors latency)]) ∧
    (mkSearchOnlyStats search_only_time search_only_total search_only_errors
        latency).lookup "errors" = some (.jnum search_only_errors) := by
  exact ⟨rfl, rfl⟩

/-- Witness for C10's amended theorem at concrete report inputs. -/
theorem c10_witness :
    ((buildReport "t" "node1" "19530" 1000 10000 10 5 1000 300 0
        (some (mkSearchOnlyStats 300 1234 7 JVal.jnull))).lookup "results") =
      some (.jobj [("search_only", mkSearchOnlyStats 300 1234 7 JVal.jnull)]) :=
  (c10_amended_report_contents "t" "node1" "19530" 1000 10000 10 5 1000 300 0
    300 1234 7 JVal.jnull).1

/-! ## C3 -/

/-- C3: for `W ≥ 1` workers over `[initial_vectors, num_vectors)` with
`num_vectors ≥ initial_vectors`, the orchestrator's ranges are pairwise
disjoint, their union is exactly `[initial_vectors, num_vectors)`, and
the last worker's end is `num_vectors` (it absorbs the remainder of the
integer division). -/
theorem c3_partition_disjoint_cover (initial_vectors num_vectors W : ℕ)
    (hW : 1 ≤ W) (hle : initial_vectors ≤ num_vectors) :
    (∀ i j, i < W → j < W → i ≠ j →
      Disjoint (insertWorkerRange initial_vectors num_vectors W i)
        (insertWorkerRange initial_vectors num_vectors W j)) ∧
    (Finset.range W).biUnion (insertWorkerRange initial_vectors num_vectors W) =
      Finset.Ico initial_vectors num_vectors ∧
    insertWorkerEnd initial_vectors num_vectors W (W - 1) = num_vectors := by
  obtain ⟨v, hv_def⟩ :
      ∃ v, vectors_per_insert_worker initial_vectors num_vectors W = v := ⟨_, rfl⟩
  have hvW : v * W ≤ num_vectors - initial_vectors := by
    rw [← hv_def, vectors_per_insert_worker]
    exact Nat.div_mul_le_self _ _
  have hstart : ∀ i, insertWorkerStart initial_vectors num_vectors W i =
      initial_vectors + i * v := by
    intro i
    rw [insertWorkerStart, hv_def]
  have hend_le : ∀ i, i < W →
      insertWorkerEnd initial_vectors num_vectors W i ≤ num_vectors := by
    intro i hi
    rw [insertWorkerEnd]
    by_cases hiW : i = W - 1
    · rw [if_pos hiW]
    · rw [if_neg hiW, hstart i, hv_def]
      have h2 : (i + 1) * v = i * v + v := by ring
      have h3 : (i + 1) * v ≤ W * v := Nat.mul_le_mul_right v (by omega)
      have h4 : W * v = v * W := Nat.mul_comm _ _
      omega
  have hdisj2 : ∀ i j, i < j → j < W →
      Disjoint (insertWorkerRange initial_vectors num_vectors W i)
        (insertWorkerRange initial_vectors num_vectors W j) := by
    intro i j hij hj
    rw [Finset.disjoint_left]
    intro x hx hx'
    rw [insertWorkerRange, Finset.mem_Ico] at hx hx'
    have hES : insertWorkerEnd initial_vectors num_vectors W i ≤
        insertWorkerStart initial_vectors num_vectors W j := by
      have hiW : i ≠ W - 1 := by omega
      rw [insertWorkerEnd, if_neg hiW, hstart i, hstart j, hv_def]
      have h2 : (i + 1) * v = i * v + v := by ring
      have h3 : (i + 1) * v ≤ j * v := Nat.mul_le_mul_right v (by omega)
      omega
    omega
  refine ⟨?_, ?_, ?_⟩
  · intro i j hi hj hne
    rcases Nat.lt_or_ge i j with h | h
    · exact hdisj2 i j h hj
    · exact (hdisj2 j i (by omega) hi).symm
  · ext x
    simp only [Finset.mem_biUnion, Finset.mem_range, insertWorkerRange, Finset.mem_Ico]
    constructor
    · rintro ⟨i, hi, hxl, hxr⟩
      have h1 : initial_vectors ≤ insertWorkerStart initial_vectors num_vectors W i := by
        rw [hstart i]
        omega
      have h2 := hend_le i hi
      omega
    · rintro ⟨hxl, hxr⟩
      obtain ⟨y, hy⟩ : ∃ y, x = initial_vectors + y := ⟨x - initial_vectors, by omega⟩
      by_cases hv0 : v = 0
      · refine ⟨W - 1, by omega, ?_, ?_⟩
        · rw [hstart, hv0]
          omega
        · rw [insertWorkerEnd, if_pos rfl]
          omega
      · by_cases hlast : W - 1 ≤ y / v
        · refine ⟨W - 1, by omega, ?_, ?_⟩
          · rw [hstart]
            have h1 : (W - 1) * v ≤ (y / v) * v := Nat.mul_le_mul_right v hlast
            have h2 : (y / v) * v ≤ y := Nat.div_mul_le_self y v
            omega
          · rw [insertWorkerEnd, if_pos rfl]
            omega
        · refine ⟨y / v, by omega, ?_, ?_⟩
          · rw [hstart]
            have h2 : (y / v) * v ≤ y := Nat.div_mul_le_self y v
            omega
          · rw [insertWorkerEnd, if_neg (by omega : ¬ y / v = W - 1), hstart, hv_def]
            have h3 := Nat.div_add_mod y v
            have h4 : y % v < v := Nat.mod_lt y (by omega)
            have h5 : v * (y / v) = (y / v) * v := Nat.mul_comm _ _
            omega
  · rw [insertWorkerEnd, if_pos rfl]

/-- Witness for C3: the partition of `[2, 12)` across 3 workers covers
exactly `[2, 12)`. -/
theorem c3_witness :
    1 ≤ 3 ∧ 2 ≤ 12 ∧
    (Finset.range 3).biUnion (insertWorkerRange 2 12 3) = Finset.Ico 2 12 :=
  ⟨by decide, by decide,
    (c3_partition_disjoint_cover 2 12 3 (by decide) (by decide)).2.1⟩

/-! ## C4

Helper lemmas about Python's `min`/`max` on lists, `statistics.mean`,
order statistics of a sorted list, and monotonicity of the linearly
interpolated `np.percentile`. -/

/-- A `foldl max` is at least its accumulator. -/
theorem foldl_max_acc_le : ∀ (l : List ℚ) (a : ℚ), a ≤ l.foldl max a := by
  intro l
  induction l with
  | nil => intro a; exact le_refl a
  | cons b l ih =>
    intro a
    calc a ≤ max a b := le_max_left a b
    _ ≤ (l.foldl max (max a b)) := ih (max a b)

/-- A `foldl max` dominates every member of the list. -/
theorem foldl_max_le_of_mem : ∀ (l : List ℚ) (a x : ℚ), x ∈ l → x ≤ l.foldl max a := by
  intro l
  induction l with
  | nil => intro a x hx; exact absurd hx (List.not_mem_nil x)
  | cons b l ih =>
    intro a x hx
    rcases List.mem_cons.mp hx with rfl | hx'
    · calc x ≤ max a x := le_max_right a x
      _ ≤ l.foldl max (max a x) := foldl_max_acc_le l (max a x)
    · exact ih (max a b) x hx'

/-- A `foldl min` is at most its accumulator. -/
theorem foldl_min_acc_ge : ∀ (l : List ℚ) (a : ℚ), l.foldl min a ≤ a := by
  intro l
  induction l with
  | nil => intro a; exact le_refl a
  | cons b l ih =>
    intro a
    calc l.foldl min (min a b) ≤ min a b := ih (min a b)
    _ ≤ a := min_le_left a b

/-- A `foldl min` is below every member of the list. -/
theorem foldl_min_le_of_mem : ∀ (l : List ℚ) (a x : ℚ), x ∈ l → l.foldl min a ≤ x := by
  intro l
  induction l with
  | nil => intro a x hx; exact absurd hx (List.not_mem_nil x)
  | cons b l ih =>
    intro a x hx
    rcases List.mem_cons.mp hx with rfl | hx'
    · calc l.foldl min (min a x) ≤ min a x := foldl_min_acc_ge l (min a x)
      _ ≤ x := min_le_right a x
    · exact ih (min a b) x hx'

/-- Python's `min(xs)` is a lower bound of `xs`. -/
theorem pyListMin_le_of_mem (xs : List ℚ) (x : ℚ) (hx : x ∈ xs) :
    pyListMin xs ≤ x := by
  cases xs with
  | nil => exact absurd hx (List.not_mem_nil x)
  | cons a l =>
    rcases List.mem_cons.mp hx with rfl | hx'
    · exact foldl_min_acc_ge l x
    · exact foldl_min_le_of_mem l a x hx'

/-- Python's `max(xs)` is an upper bound of `xs`. -/
theorem le_pyListMax_of_mem (xs : List ℚ) (x : ℚ) (hx : x ∈ xs) :
    x ≤ pyListMax xs := by
  cases xs with
  | nil => exact absurd hx (List.not_mem_nil x)
  | cons a l =>
    rcases List.mem_cons.mp hx with rfl | hx'
    · exact foldl_max_acc_le l x
    · exact foldl_max_le_of_mem l a x hx'

/-- Python's `max(xs)` is an element of a non-empty `xs`. -/
theorem pyListMax_mem (xs : List ℚ) (hne : xs ≠ []) : pyListMax xs ∈ xs := by
  cases xs with
  | nil => exact absurd rfl hne
  | cons a l =>
    show l.foldl max a ∈ a :: l
    clear hne
    induction l generalizing a with
    | nil => exact List.mem_singleton.mpr rfl
    | cons b l ih =>
      show l.foldl max (max a b) ∈ a :: b :: l
      have hm := ih (max a b)
      rcases List.mem_cons.mp hm with heq | hmem
      · rw [heq]
        rcases max_choice a b with h | h
        · rw [h]; exact List.mem_cons_self _ _
        · rw [h]; exact List.mem_cons_of_mem _ (List.mem_cons_self _ _)
      · exact List.mem_cons_of_mem _ (List.mem_cons_of_mem _ hmem)

/-- A uniform lower bound `b` on the entries bounds the sum below by
`length * b`. -/
theorem length_mul_le_sum (xs : List ℚ) (b : ℚ) (h : ∀ x ∈ xs, b ≤ x) :
    (xs.length : ℚ) * b ≤ xs.sum := by
  induction xs with
  | nil => simp
  | cons a l ih =>
    have h1 : b ≤ a := h a (List.mem_cons_self a l)
    have h2 : (l.length : ℚ) * b ≤ l.sum := ih fun x hx => h x (List.mem_cons_of_mem a hx)
    simp only [List.length_cons, List.sum_cons]
    push_cast
    linarith

/-- A uniform upper bound `b` on the entries bounds the sum above by
`length * b`. -/
theorem sum_le_length_mul (xs : List ℚ) (b : ℚ) (h : ∀ x ∈ xs, x ≤ b) :
    xs.sum ≤ (xs.length : ℚ) * b := by
  induction xs with
  | nil => simp
  | cons a l ih =>
    have h1 : a ≤ b := h a (List.mem_cons_self a l)
    have h2 : l.sum ≤ (l.length : ℚ) * b := ih fun x hx => h x (List.mem_cons_of_mem a hx)
    simp only [List.length_cons, List.sum_cons]
    push_cast
    linarith

/-- `statistics.mean` of a non-empty list lies between Python's `min`
and `max` of that list. -/
theorem statisticsMean_bounds (xs : List ℚ) (hne : xs ≠ []) :
    pyListMin xs ≤ statisticsMean xs ∧ statisticsMean xs ≤ pyListMax xs := by
  have hlen : 0 < (xs.length : ℚ) := by
    have := List.length_pos.mpr hne
    exact_mod_cast this
  constructor
  · rw [statisticsMean, le_div_iff₀ hlen]
    have := length_mul_le_sum xs (pyListMin xs) (fun x hx => pyListMin_le_of_mem xs x hx)
    linarith
  · rw [statisticsMean, div_le_iff₀ hlen]
    have := sum_le_length_mul xs (pyListMax xs) (fun x hx => le_pyListMax_of_mem xs x hx)
    linarith

/-- Order statistics of a sorted list are monotone in the index. -/
theorem sorted_getD_mono (xs : List ℚ) (hs : xs.Sorted (· ≤ ·)) (i j : ℕ)
    (hij : i ≤ j) (hj : j < xs.length) : xs.getD i 0 ≤ xs.getD j 0 := by
  have hi : i < xs.length := lt_of_le_of_lt hij hj
  rw [List.getD_eq_getElem xs 0 hi, List.getD_eq_getElem xs 0 hj]
  have hrel := List.Sorted.rel_get_of_le hs
    (show (⟨i, hi⟩ : Fin xs.length) ≤ ⟨j, hj⟩ from hij)
  simpa [List.get_eq_getElem] using hrel

/-- In a sorted list, the upper interpolation point of `np.percentile`
is at least the lower one (the out-of-range default collapses them). -/
theorem sorted_getD_le_next (xs : List ℚ) (hs : xs.Sorted (· ≤ ·)) (i : ℕ) :
    xs.getD i 0 ≤ xs.getD (i + 1) (xs.getD i 0) := by
  by_cases h : i + 1 < xs.length
  · have e1 : xs.getD (i + 1) (xs.getD i 0) = xs[i + 1] :=
      List.getD_eq_getElem xs (xs.getD i 0) h
    have e2 : xs.getD (i + 1) 0 = xs[i + 1] := List.getD_eq_getElem xs 0 h
    rw [e1, ← e2]
    exact sorted_getD_mono xs hs i (i + 1) (Nat.le_succ i) h
  · rw [List.getD_eq_default xs (xs.getD i 0) (by omega : xs.length ≤ i + 1)]

/-- Monotonicity of the linearly interpolated percentile in the
requested quantile, over a sorted non-empty sample list. -/
theorem npPercentile_mono (xs : List ℚ) (hs : xs.Sorted (· ≤ ·)) (hne : xs ≠ [])
    (q1 q2 : ℚ) (h0 : 0 ≤ q1) (h12 : q1 ≤ q2) (h100 : q2 ≤ 100) :
    npPercentile xs q1 ≤ npPercentile xs q2 := by
  have hn : 1 ≤ xs.length := List.length_pos.mpr hne
  have hn1 : (0 : ℚ) ≤ (xs.length : ℚ) - 1 := by
    have h1n : (1 : ℚ) ≤ (xs.length : ℚ) := by exact_mod_cast hn
    linarith
  have hcast : ((xs.length : ℚ)) - 1 = ((xs.length - 1 : ℕ) : ℚ) := by
    rw [Nat.cast_sub hn]
    norm_num
  have hmono : q1 / 100 * ((xs.length : ℚ) - 1) ≤ q2 / 100 * ((xs.length : ℚ) - 1) := by
    have hq : q1 / 100 ≤ q2 / 100 := by linarith
    exact mul_le_mul_of_nonneg_right hq hn1
  have h1_nonneg : 0 ≤ q1 / 100 * ((xs.length : ℚ) - 1) :=
    mul_nonneg (by positivity) hn1
  have h2_nonneg : 0 ≤ q2 / 100 * ((xs.length : ℚ) - 1) := le_trans h1_nonneg hmono
  have hub2 : q2 / 100 * ((xs.length : ℚ) - 1) ≤ (xs.length : ℚ) - 1 := by
    have hle1 : q2 / 100 ≤ 1 := by linarith
    have := mul_le_mul_of_nonneg_right hle1 hn1
    linarith
  set h1 : ℚ := q1 / 100 * ((xs.length : ℚ) - 1) with hh1
  set h2 : ℚ := q2 / 100 * ((xs.length : ℚ) - 1) with hh2
  set i1 : ℕ := ⌊h1⌋₊ with hi1
  set i2 : ℕ := ⌊h2⌋₊ with hi2
  have hi12 : i1 ≤ i2 := Nat.floor_mono hmono
  have hfl1 : (i1 : ℚ) ≤ h1 := Nat.floor_le h1_nonneg
  have hfl2 : (i2 : ℚ) ≤ h2 := Nat.floor_le h2_nonneg
  have hlt1 : h1 < i1 + 1 := Nat.lt_floor_add_one h1
  have hlt2 : h2 < i2 + 1 := Nat.lt_floor_add_one h2
  have hi2n : i2 ≤ xs.length - 1 := by
    have hmono2 : i2 ≤ ⌊((xs.length - 1 : ℕ) : ℚ)⌋₊ :=
      Nat.floor_mono (by rw [← hcast]; exact hub2)
    simpa [Nat.floor_natCast] using hmono2
  have hi2n' : i2 < xs.length := by omega
  have hi1n' : i1 < xs.length := by omega
  show xs.getD i1 0 + (h1 - (i1 : ℚ)) * (xs.getD (i1+1) (xs.getD i1 0) - xs.getD i1 0) ≤
    xs.getD i2 0 + (h2 - (i2 : ℚ)) * (xs.getD (i2+1) (xs.getD i2 0) - xs.getD i2 0)
  have hd1 : xs.getD i1 0 ≤ xs.getD (i1+1) (xs.getD i1 0) := sorted_getD_le_next xs hs i1
  have hd2 : xs.getD i2 0 ≤ xs.getD (i2+1) (xs.getD i2 0) := sorted_getD_le_next xs hs i2
  rcases Nat.lt_or_ge i1 i2 with hcase | hcase
  · -- i1 < i2 : value at q1 ≤ xs[i1+1] ≤ xs[i2] ≤ value at q2
    have hi1succ : i1 + 1 < xs.length := by omega
    have hnext : xs.getD (i1+1) (xs.getD i1 0) = xs.getD (i1+1) 0 := by
      rw [List.getD_eq_getElem xs (xs.getD i1 0) hi1succ, List.getD_eq_getElem xs 0 hi1succ]
    have hstep : xs.getD (i1+1) 0 ≤ xs.getD i2 0 :=
      sorted_getD_mono xs hs (i1+1) i2 (by omega) hi2n'
    have hv1 : xs.getD i1 0 + (h1 - (i1 : ℚ)) * (xs.getD (i1+1) (xs.getD i1 0) - xs.getD i1 0) ≤
        xs.getD (i1+1) (xs.getD i1 0) := by
      nlinarith [hd1, hlt1, hfl1]
    have hv2 : xs.getD i2 0 ≤
        xs.getD i2 0 + (h2 - (i2 : ℚ)) * (xs.getD (i2+1) (xs.getD i2 0) - xs.getD i2 0) := by
      nlinarith [hd2, hfl2]
    rw [hnext] at hv1
    rw [hnext]
    linarith
  · -- i1 = i2 : interpolate within the same segment
    have heq : i1 = i2 := by omega
    rw [heq]
    have hf : h1 - (i2 : ℚ) ≤ h2 - (i2 : ℚ) := by linarith
    have hmul := mul_le_mul_of_nonneg_right hf
      (by linarith [hd2] : (0 : ℚ) ≤ xs.getD (i2 + 1) (xs.getD i2 0) - xs.getD i2 0)
    linarith

/-- `np.percentile(xs, 100)` is the last order statistic. -/
theorem npPercentile_hundred (xs : List ℚ) (hne : xs ≠ []) :
    npPercentile xs 100 = xs.getD (xs.length - 1) 0 := by
  have hn : 1 ≤ xs.length := List.length_pos.mpr hne
  have e1 : (100 : ℚ) / 100 * ((xs.length : ℚ) - 1) = ((xs.length - 1 : ℕ) : ℚ) := by
    rw [Nat.cast_sub hn]
    norm_num
  show xs.getD ⌊(100 : ℚ) / 100 * ((xs.length : ℚ) - 1)⌋₊ 0 +
      ((100 : ℚ) / 100 * ((xs.length : ℚ) - 1) -
        (⌊(100 : ℚ) / 100 * ((xs.length : ℚ) - 1)⌋₊ : ℚ)) *
      (xs.getD (⌊(100 : ℚ) / 100 * ((xs.length : ℚ) - 1)⌋₊ + 1)
        (xs.getD ⌊(100 : ℚ) / 100 * ((xs.length : ℚ) - 1)⌋₊ 0) -
       xs.getD ⌊(100 : ℚ) / 100 * ((xs.length : ℚ) - 1)⌋₊ 0) =
      xs.getD (xs.length - 1) 0
  rw [e1, Nat.floor_natCast]
  ring

/-- The last order statistic of a non-empty list is a member. -/
theorem getD_last_mem (xs : List ℚ) (hne : xs ≠ []) :
    xs.getD (xs.length - 1) 0 ∈ xs := by
  have hn : 1 ≤ xs.length := List.length_pos.mpr hne
  have hlt : xs.length - 1 < xs.length := by omega
  rw [List.getD_eq_getElem xs 0 hlt]
  exact List.getElem_mem hlt

/-- Every member of a sorted list is at most its last order statistic. -/
theorem sorted_le_getD_last (xs : List ℚ) (hs : xs.Sorted (· ≤ ·)) (x : ℚ)
    (hx : x ∈ xs) : x ≤ xs.getD (xs.length - 1) 0 := by
  obtain ⟨i, hi⟩ := List.mem_iff_get.mp hx
  have hlen : (i : ℕ) < xs.length := i.isLt
  have hxi : x = xs.getD i 0 := by
    rw [List.getD_eq_getElem xs 0 hlen, ← hi]
    simp [List.get_eq_getElem]
  rw [hxi]
  exact sorted_getD_mono xs hs i (xs.length - 1) (by omega) (by omega)

/-- Python's `max` of a sorted non-empty list is its last order
statistic. -/
theorem pyListMax_eq_getD_last (xs : List ℚ) (hs : xs.Sorted (· ≤ ·)) (hne : xs ≠ []) :
    pyListMax xs = xs.getD (xs.length - 1) 0 := by
  refine le_antisymm ?_ ?_
  · exact sorted_le_getD_last xs hs _ (pyListMax_mem xs hne)
  · exact le_pyListMax_of_mem xs _ (getD_last_mem xs hne)

/-- C4: whatever latencies were recorded, the statistics returned by
`get_stats` satisfy p50 ≤ p80 ≤ p90 ≤ p95 ≤ p99 ≤ p99.9 ≤ max and
min ≤ mean ≤ max, the percentiles being linear interpolations between
order statistics of the sorted samples. -/
theorem c4_get_stats_percentiles_monotone (t : LatencyTracker) (s : LatencyStats)
    (h : t.get_stats = some s) :
    s.p50_ms ≤ s.p80_ms ∧ s.p80_ms ≤ s.p90_ms ∧ s.p90_ms ≤ s.p95_ms ∧
    s.p95_ms ≤ s.p99_ms ∧ s.p99_ms ≤ s.p99_9_ms ∧ s.p99_9_ms ≤ s.max_ms ∧
    s.min_ms ≤ s.mean_ms ∧ s.mean_ms ≤ s.max_ms := by
  unfold LatencyTracker.get_stats at h
  by_cases hemp : t.latencies = []
  · rw [if_pos hemp] at h
    exact absurd h (by simp)
  · rw [if_neg hemp] at h
    have hs := (Option.some.inj h).symm
    have hsorted : (List.insertionSort (· ≤ ·) t.latencies).Sorted (· ≤ ·) :=
      List.sorted_insertionSort (· ≤ ·) t.latencies
    have hSne : List.insertionSort (· ≤ ·) t.latencies ≠ [] := by
      intro hnil
      apply hemp
      have hperm := List.perm_insertionSort (· ≤ ·) t.latencies
      rw [hnil] at hperm
      exact (List.Perm.nil_eq hperm).symm
    subst hs
    refine ⟨?_, ?_, ?_, ?_, ?_, ?_, ?_, ?_⟩
    · exact npPercentile_mono _ hsorted hSne 50 80 (by norm_num) (by norm_num) (by norm_num)
    · exact npPercentile_mono _ hsorted hSne 80 90 (by norm_num) (by norm_num) (by norm_num)
    · exact npPercentile_mono _ hsorted hSne 90 95 (by norm_num) (by norm_num) (by norm_num)
    · exact npPercentile_mono _ hsorted hSne 95 99 (by norm_num) (by norm_num) (by norm_num)
    · exact npPercentile_mono _ hsorted hSne 99 (999/10) (by norm_num) (by norm_num)
        (by norm_num)
    · show npPercentile (List.insertionSort (· ≤ ·) t.latencies) (999/10) ≤
        pyListMax (List.insertionSort (· ≤ ·) t.latencies)
      calc npPercentile (List.insertionSort (· ≤ ·) t.latencies) (999/10) ≤
          npPercentile (List.insertionSort (· ≤ ·) t.latencies) 100 :=
            npPercentile_mono _ hsorted hSne (999/10) 100 (by norm_num) (by norm_num)
              (by norm_num)
        _ = (List.insertionSort (· ≤ ·) t.latencies).getD
            ((List.insertionSort (· ≤ ·) t.latencies).length - 1) 0 :=
            npPercentile_hundred _ hSne
        _ = pyListMax (List.insertionSort (· ≤ ·) t.latencies) :=
            (pyListMax_eq_getD_last _ hsorted hSne).symm
    · exact (statisticsMean_bounds _ hSne).1
    · exact (statisticsMean_bounds _ hSne).2

/-- Witness for C4 at the one-sample tracker `[4]`, whose statistics
all equal 4. -/
theorem c4_witness :
    LatencyTracker.get_stats ⟨[4]⟩ = some ⟨1, 4, 4, 4, 4, 4, 4, 4, 4, 4⟩ ∧
    ((4 : ℚ) ≤ 4 ∧ (4 : ℚ) ≤ 4 ∧ (4 : ℚ) ≤ 4 ∧ (4 : ℚ) ≤ 4 ∧ (4 : ℚ) ≤ 4 ∧
      (4 : ℚ) ≤ 4 ∧ (4 : ℚ) ≤ 4 ∧ (4 : ℚ) ≤ 4) := by
  have hstats : LatencyTracker.get_stats ⟨[4]⟩ = some ⟨1, 4, 4, 4, 4, 4, 4, 4, 4, 4⟩ := by
    unfold LatencyTracker.get_stats
    rw [if_neg (by simp)]
    simp only [List.insertionSort, List.orderedInsert]
    norm_num [npPercentile, statisticsMean, pyListMin, pyListMax, List.getD]
  exact ⟨hstats,
    c4_get_stats_percentiles_monotone ⟨[4]⟩ ⟨1, 4, 4, 4, 4, 4, 4, 4, 4, 4⟩ hstats⟩
